import Mathlib

/-!
Verification development for the Hodor deployment engine
(package deployer plus its HTTP collaborators).

The Go sources are shallowly embedded as pure Lean functions:

* Filesystem paths are modelled as their clean components
  (`Path := List String`); `filepath.Join` of clean relative paths is
  list append.  The filesystem is a finite record of directories and
  regular files (path, byte content as a `String`, permission bits).
* The buntdb key-value store is an association list from keys to stored
  values; `tx.Set` is overwrite-or-append, `tx.Get` is lookup.
* JSON serialization of a `JobStatus` round-trips the record, so the
  `Serde` interface is modelled as a fallible identity on `JobStatus`;
  the default (JSON) serde never fails, the failing test double does.
* `ioutil.TempDir` returns some fresh directory name; it is modelled as
  an oracle `gen : FS → Path`, and theorems assume the freshness that
  `TempDir` guarantees.
* `xid.New()` produces a globally unique id; the generated id is passed
  to `deploy` explicitly.
* The single worker is sequential, so channel operations become list
  operations: the queue is a `List Job` with the capacity of the
  buffered channel, a receive is taking the head, and the stop flag is
  an ordinary `Bool` field.
-/

set_option autoImplicit false

namespace Hodor

/-- A filesystem path, as its list of clean components. -/
abbrev Path := List String

/-- Renders a path the way the Go code prints it in error messages. -/
def showPath (p : Path) : String :=
  String.intercalate "/" p

/-- Renders a string the way the Go format verb %q does for plain
identifiers: wrapped in double quotes. -/
def goQuote (s : String) : String :=
  "\"" ++ s ++ "\""

/-- One entry of the (already gunzipped) tar stream: a header that is
either a directory or a regular file with its byte content. -/
inductive TarEntry where
  | dir (name : Path)
  | file (name : Path) (content : String)
deriving DecidableEq, Repr

/-- A regular file on disk: its path, its byte content and its
permission bits. -/
structure FileEntry where
  path : Path
  content : String
  perm : Nat
deriving DecidableEq, Repr

/-- The filesystem state: the set of directories and the set of regular
files, as lists. -/
structure FS where
  dirs : List Path
  files : List FileEntry
deriving DecidableEq, Repr

/-- Is there a directory or a file at path p (the check os.Stat
performs in untar's directory case). -/
def pathExists (fs : FS) (p : Path) : Bool :=
  fs.dirs.contains p || fs.files.any (fun f => f.path == p)

/-- All nonempty prefixes of a path, ending with the path itself. -/
def pathInits (p : Path) : List Path :=
  (List.range p.length).map (fun i => p.take (i + 1))

/-- Embeds os.MkdirAll: creates the directory p together with any
missing ancestors (idempotent on directories already present). -/
def mkdirAll (fs : FS) (p : Path) : FS :=
  { fs with dirs := fs.dirs ++ (pathInits p).filter (fun q => !(fs.dirs.contains q)) }

/-- Embeds os.RemoveAll: removes the entry at p and everything below
it, for directories and files alike. -/
def removeAll (fs : FS) (p : Path) : FS :=
  { dirs := fs.dirs.filter (fun d => !(p.isPrefixOf d)),
    files := fs.files.filter (fun f => !(p.isPrefixOf f.path)) }

/-- Rewrites a path below src to the corresponding path below dst;
paths not below src are unchanged. -/
def rebase (src dst q : Path) : Path :=
  if src.isPrefixOf q then dst ++ q.drop src.length else q

/-- Embeds os.Rename on a directory: fails if the source directory does
not exist or anything already lives at or below the destination;
otherwise atomically moves the whole subtree. -/
def renameDir (fs : FS) (src dst : Path) : Except String FS :=
  if !(fs.dirs.contains src) then
    .error ("rename " ++ showPath src ++ ": no such file or directory")
  else if fs.dirs.any (fun d => dst.isPrefixOf d)
      || fs.files.any (fun f => dst.isPrefixOf f.path) then
    .error ("rename " ++ showPath dst ++ ": file exists")
  else
    .ok { dirs := fs.dirs.map (rebase src dst),
          files := fs.files.map (fun f => { f with path := rebase src dst f.path }) }

/-- Writing via a descriptor opened with O_CREATE|O_RDWR (and no
O_TRUNC) writes the new bytes from offset zero and keeps any trailing
bytes of the previous content. -/
def writeContent (newContent old : String) : String :=
  newContent ++ old.drop newContent.length

/-- Embeds the regular-file case of untar: os.OpenFile with
O_CREATE|O_RDWR and mode 0755 followed by io.Copy.  Creation requires
the parent directory to exist; a pre-existing file keeps its permission
bits and is written from offset zero without truncation. -/
def openWrite (fs : FS) (p : Path) (c : String) : Except String FS :=
  if !(fs.dirs.contains p.dropLast) then
    .error ("failed to open file " ++ showPath p)
  else
    match fs.files.find? (fun f => f.path == p) with
    | some _ =>
      .ok { fs with files := fs.files.map (fun g =>
              if g.path == p then { g with content := writeContent c g.content } else g) }
    | none =>
      .ok { fs with files := fs.files ++ [⟨p, c, 493⟩] }

/-- Embeds untar: walks the remaining tar entries, creating directories
idempotently and writing regular files. -/
def untar (dest : Path) (entries : List TarEntry) (fs : FS) : Except String FS :=
  match entries with
  | [] => .ok fs
  | .dir name :: rest =>
    let target := dest ++ name
    let fs' := if pathExists fs target then fs else mkdirAll fs target
    untar dest rest fs'
  | .file name c :: rest =>
    let target := dest ++ name
    match openWrite fs target c with
    | .error e => .error e
    | .ok fs' => untar dest rest fs'

/-- The result of reading the HTTP response body through gzip.NewReader
and tar.NewReader: either a gzip-level failure or the decoded sequence
of tar entries. -/
abbrev Body := Except String (List TarEntry)

/-- Embeds saveTar: requires the first tar header to be a directory
(the archive root), creates that root inside dest, extracts the rest,
and returns the root folder name. -/
def saveTar (body : Body) (dest : Path) (fs : FS) : Except String (Path × FS) :=
  match body with
  | .error e => .error ("failed to create reader: " ++ e)
  | .ok [] => .error ("failed to read the first header: EOF")
  | .ok (.file _ _ :: _) => .error "tar must be a folder"
  | .ok (.dir name :: rest) =>
    let fs1 := mkdirAll fs (dest ++ name)
    match untar dest rest fs1 with
    | .error e => .error ("failed to extract: " ++ e)
    | .ok fs2 => .ok (name, fs2)

/-- The status record persisted for a job. -/
structure JobStatus where
  status : String
  message : String
deriving DecidableEq, Repr

/-- The Serde interface: marshalling and unmarshalling of a JobStatus.
JSON round-trips the record, so the stored representation is the record
itself; a failing test double returns an error. -/
structure Serde where
  marshal : JobStatus → Except String JobStatus
  unmarshal : JobStatus → Except String JobStatus

/-- The default JSON serde: marshalling and unmarshalling always
succeed and round-trip the record. -/
def defaultSerde : Serde :=
  ⟨Except.ok, Except.ok⟩

/-- jobSize is the channel size used to store jobs. -/
def jobSize : Nat := 50

/-- A job, created each time a release deployment is triggered. -/
structure Job where
  id : String
  releaseID : String
  releaseURL : String
deriving DecidableEq, Repr

/-- The Config collaborator: the read-only mapping from release key to
target folder. -/
structure Config where
  entries : List (String × Path)

/-- The HTTP client capability: for a URL, either a transport error or
a response body. -/
abbrev HTTPClient := String → Except String Body

/-- Overwrites the value stored under a key, or appends a fresh binding
(buntdb tx.Set inside one transaction). -/
def kvSet {α : Type} (db : List (String × α)) (k : String) (v : α) : List (String × α) :=
  match db with
  | [] => [(k, v)]
  | (k0, v0) :: rest => if k0 = k then (k, v) :: rest else (k0, v0) :: kvSet rest k v

/-- The FileDeployer state: the persisted store, the job queue with the
capacity of its channel, the stop flag, the injected serde and config,
and the error log (zerolog error events, as error/message pairs). -/
structure FileDeployer where
  db : List (String × JobStatus)
  jobs : List Job
  jobsCap : Nat
  stop : Bool
  serde : Serde
  config : Config
  log : List (String × String)

/-- Embeds saveJobStatus: marshal the status; on success store it under
the job id in one transaction. -/
def saveJobStatus (fd : FileDeployer) (jobID status message : String) :
    Except String FileDeployer :=
  match fd.serde.marshal ⟨status, message⟩ with
  | .error e => .error ("failed to marshal status: " ++ e)
  | .ok buf => .ok { fd with db := kvSet fd.db jobID buf }

/-- Embeds FileDeployer.Deploy: refuse when stopped, persist the
created status, then try a non-blocking enqueue into the bounded queue.
The freshly generated xid is passed in as newId.  The updated state is
returned alongside the result, mirroring the in-place mutation. -/
def deploy (fd : FileDeployer) (newId releaseID releaseURL : String) :
    FileDeployer × Except String String :=
  if fd.stop then
    (fd, .error "deployer is stopped")
  else
    match saveJobStatus fd newId "created" "job has been created" with
    | .error e => (fd, .error ("failed to set job status: " ++ e))
    | .ok fd' =>
      if fd'.jobs.length < fd'.jobsCap then
        ({ fd' with jobs := fd'.jobs ++ [⟨newId, releaseID, releaseURL⟩] }, .ok newId)
      else
        (fd', .error "buffer is full, re-try later")

/-- Embeds FileDeployer.GetStatus: read the stored value (not-found is
its own error), then unmarshal it. -/
def getStatus (fd : FileDeployer) (key : String) : Except String JobStatus :=
  match fd.db.lookup key with
  | none => .error ("key " ++ goQuote key ++ " not found")
  | some stored =>
    match fd.serde.unmarshal stored with
    | .error e => .error ("failed to unmarshal job status: " ++ e)
    | .ok s => .ok s

/-- Embeds FileDeployer.Start's initialization: a fresh queue of
capacity jobSize and a cleared stop flag (the subsequent blocking call
to processJobs is a separate function here). -/
def start (fd : FileDeployer) : FileDeployer :=
  { fd with jobs := [], jobsCap := jobSize, stop := false }

/-- Embeds FileDeployer.Stop: sets the stop flag (closing the channel
lets the worker loop observe the end of the queue). -/
def stopDeployer (fd : FileDeployer) : FileDeployer :=
  { fd with stop := true }

/-- Embeds handleJob: resolve the target folder, fetch the archive,
create a scratch directory, extract, remove the old target and rename
the extracted root into place.  The scratch directory is removed on
every exit path that created it (the deferred os.RemoveAll). -/
def handleJob (conf : Config) (client : HTTPClient) (gen : FS → Path)
    (fs : FS) (j : Job) : FS × Except String Unit :=
  match conf.entries.lookup j.releaseID with
  | none => (fs, .error ("releaseID " ++ goQuote j.releaseID ++ " not found from the config"))
  | some targetFolder =>
    match client j.releaseURL with
    | .error e => (fs, .error ("failed to get file: " ++ e))
    | .ok body =>
      let tmpDest := gen fs
      let fs1 : FS := { fs with dirs := fs.dirs ++ [tmpDest] }
      match saveTar body tmpDest fs1 with
      | .error e => (removeAll fs1 tmpDest, .error ("failed to save tar file: " ++ e))
      | .ok (root, fs2) =>
        let fs3 := removeAll fs2 targetFolder
        match renameDir fs3 (tmpDest ++ root) targetFolder with
        | .error e => (removeAll fs3 tmpDest, .error ("failed to rename folder: " ++ e))
        | .ok fs4 => (removeAll fs4 tmpDest, .ok ())

/-- Embeds the loop body of processJobs over an explicit queue: each
iteration dequeues a job, returns at once if the stop flag is set,
otherwise runs handleJob and persists the terminal status, logging (and
otherwise swallowing) a failure to persist it.  Returns the final
state, the jobs left in the channel, and the filesystem. -/
def processJobsAux (client : HTTPClient) (gen : FS → Path) :
    List Job → FileDeployer → FS → FileDeployer × List Job × FS
  | [], fd, fs => (fd, [], fs)
  | j :: rest, fd, fs =>
    if fd.stop then (fd, rest, fs)
    else
      match handleJob fd.config client gen fs j with
      | (fs', .error e) =>
        match saveJobStatus fd j.id "failed" e with
        | .error e2 =>
          processJobsAux client gen rest
            { fd with log := fd.log ++
                [(e2, "job failed: failed to save status. Error was: " ++ e)] } fs'
        | .ok fd' => processJobsAux client gen rest fd' fs'
      | (fs', .ok _) =>
        match saveJobStatus fd j.id "ok" "job done" with
        | .error e2 =>
          processJobsAux client gen rest
            { fd with log := fd.log ++ [(e2, "job ok: failed to save status")] } fs'
        | .ok fd' => processJobsAux client gen rest fd' fs'

/-- Embeds processJobs: run the loop over the deployer's queue. -/
def processJobs (client : HTTPClient) (gen : FS → Path)
    (fd : FileDeployer) (fs : FS) : FileDeployer × FS :=
  let r := processJobsAux client gen fd.jobs { fd with jobs := [] } fs
  ({ r.1 with jobs := r.2.1 }, r.2.2)

/-- Scenario harness for backpressure: runs a sequence of Deploy calls
(each given its generated id, release key and URL), threading the state
and collecting each call's result in order. -/
def deploySeq (fd : FileDeployer) :
    List (String × String × String) → FileDeployer × List (Except String String)
  | [] => (fd, [])
  | s :: rest =>
    let r := deploy fd s.1 s.2.1 s.2.2
    let r2 := deploySeq r.1 rest
    (r2.1, r.2 :: r2.2)

/-- Modelled from the spec: GetLatestTag reads the tag recorded for the
release key in the store's tag namespace (kept separate from job
statuses) and returns the sentinel "unknown", with no error, when none
is recorded.  The deployer source in this snapshot predates the tag
feature; only its tests and the HTTP tags handler refer to it. -/
def getLatestTag (tags : List (String × String)) (releaseID : String) :
    Except String String :=
  match tags.lookup releaseID with
  | none => .ok "unknown"
  | some t => .ok t

/-- Modelled from the spec: on a successful install whose job carried a
non-empty tag, the worker records that tag as the latest one for the
release key; an empty tag records nothing. -/
def recordLatestTag (tags : List (String × String)) (releaseID tag : String) :
    List (String × String) :=
  if tag = "" then tags else kvSet tags releaseID tag

/-! Helper lemmas about the key-value store. -/

theorem lookup_kvSet_self (db : List (String × JobStatus)) (k : String) (v : JobStatus) :
    (kvSet db k v).lookup k = some v := by
  induction db with
  | nil => simp [kvSet, List.lookup]
  | cons hd rest ih =>
    obtain ⟨k0, v0⟩ := hd
    by_cases h : k0 = k
    · simp [kvSet, h, List.lookup]
    · simp only [kvSet, if_neg h, List.lookup]
      have : (k == k0) = false := by
        simp [beq_eq_false_iff_ne]
        exact fun hk => h hk.symm
      simp [this, ih]

theorem lookup_kvSet_ne (db : List (String × JobStatus)) (k k' : String) (v : JobStatus)
    (h : k' ≠ k) : (kvSet db k v).lookup k' = db.lookup k' := by
  have hb : (k' == k) = false := beq_eq_false_iff_ne.mpr h
  induction db with
  | nil => simp [kvSet, List.lookup, hb]
  | cons hd rest ih =>
    obtain ⟨k0, v0⟩ := hd
    by_cases h0 : k0 = k
    · subst h0
      simp [kvSet, List.lookup, hb]
    · simp only [kvSet, if_neg h0, List.lookup]
      cases hb0 : (k' == k0) <;> simp [ih]

/-! Helper lemmas about Deploy. -/

theorem deploy_ok_state (fd : FileDeployer) (newId releaseID releaseURL : String)
    (hstop : fd.stop = false) (hserde : fd.serde = defaultSerde)
    (hlt : fd.jobs.length < fd.jobsCap) :
    deploy fd newId releaseID releaseURL =
      ({ fd with db := kvSet fd.db newId ⟨"created", "job has been created"⟩,
                 jobs := fd.jobs ++ [⟨newId, releaseID, releaseURL⟩] },
       .ok newId) := by
  simp [deploy, hstop, saveJobStatus, hserde, defaultSerde, hlt]

theorem deploy_full_state (fd : FileDeployer) (newId releaseID releaseURL : String)
    (hstop : fd.stop = false) (hserde : fd.serde = defaultSerde)
    (hge : ¬ fd.jobs.length < fd.jobsCap) :
    deploy fd newId releaseID releaseURL =
      ({ fd with db := kvSet fd.db newId ⟨"created", "job has been created"⟩ },
       .error "buffer is full, re-try later") := by
  simp [deploy, hstop, saveJobStatus, hserde, defaultSerde, hge]

/-- Claim C2: for every call to Deploy that returns a job id, the
status "created" with message "job has been created" is persisted
before Deploy returns, so a GetStatus on that job id issued right after
Deploy returns reports status "created" and never a not-found error
(the worker has not run at all in this statement). -/
theorem deploy_persists_created_before_return
    (fd : FileDeployer) (newId releaseID releaseURL : String)
    (hserde : fd.serde = defaultSerde)
    (fd' : FileDeployer) (jobID : String)
    (hok : deploy fd newId releaseID releaseURL = (fd', .ok jobID)) :
    jobID = newId ∧
    getStatus fd' jobID = .ok ⟨"created", "job has been created"⟩ := by
  cases hstop : fd.stop with
  | true => simp [deploy, hstop] at hok
  | false =>
    simp only [deploy, hstop, Bool.false_eq_true, if_false, saveJobStatus, hserde,
      defaultSerde] at hok
    by_cases hlt : fd.jobs.length < fd.jobsCap
    · simp only [hlt, if_true] at hok
      obtain ⟨hfd, hid⟩ := Prod.mk.injEq .. ▸ hok
      cases hid
      refine ⟨rfl, ?_⟩
      subst hfd
      simp [getStatus, lookup_kvSet_self, hserde, defaultSerde]
    · simp [hlt] at hok

theorem deploy_persists_created_before_return_witness :
    "id1" = "id1" ∧
    getStatus (deploy ⟨[], [], 50, false, defaultSerde, ⟨[]⟩, []⟩ "id1" "k" "u").1 "id1" =
      .ok ⟨"created", "job has been created"⟩ :=
  deploy_persists_created_before_return
    ⟨[], [], 50, false, defaultSerde, ⟨[]⟩, []⟩ "id1" "k" "u" rfl _ "id1" rfl

/-! Helper lemmas about deploySeq. -/

theorem deploySeq_all_ok : ∀ (subs : List (String × String × String)) (fd : FileDeployer),
    fd.stop = false → fd.serde = defaultSerde →
    fd.jobs.length + subs.length ≤ fd.jobsCap →
    (deploySeq fd subs).2 = subs.map (fun s => Except.ok s.1) ∧
    (deploySeq fd subs).1.stop = false ∧
    (deploySeq fd subs).1.serde = defaultSerde ∧
    (deploySeq fd subs).1.jobsCap = fd.jobsCap ∧
    (deploySeq fd subs).1.jobs.length = fd.jobs.length + subs.length := by
  intro subs
  induction subs with
  | nil =>
    intro fd h1 h2 _
    exact ⟨rfl, h1, h2, rfl, by simp [deploySeq]⟩
  | cons s rest ih =>
    intro fd hstop hserde hle
    simp only [List.length_cons] at hle
    have hlt : fd.jobs.length < fd.jobsCap := by omega
    have hd := deploy_ok_state fd s.1 s.2.1 s.2.2 hstop hserde hlt
    set fdU : FileDeployer :=
      { fd with db := kvSet fd.db s.1 ⟨"created", "job has been created"⟩,
                jobs := fd.jobs ++ [⟨s.1, s.2.1, s.2.2⟩] } with hfdU
    have hlenU : fdU.jobs.length = fd.jobs.length + 1 := by
      simp [hfdU]
    have hcapU : fdU.jobsCap = fd.jobsCap := by
      simp [hfdU]
    have hnext := ih fdU hstop hserde (by rw [hlenU, hcapU]; omega)
    have hseq : deploySeq fd (s :: rest) =
        ((deploySeq fdU rest).1, Except.ok s.1 :: (deploySeq fdU rest).2) := by
      simp [deploySeq, hd]
    rw [hseq]
    refine ⟨?_, hnext.2.1, hnext.2.2.1, hnext.2.2.2.1, ?_⟩
    · simp [hnext.1]
    · rw [hnext.2.2.2.2, hlenU]
      simp only [List.length_cons]
      omega

theorem deploySeq_append (l1 l2 : List (String × String × String)) :
    ∀ fd : FileDeployer,
    deploySeq fd (l1 ++ l2) =
      ((deploySeq (deploySeq fd l1).1 l2).1,
       (deploySeq fd l1).2 ++ (deploySeq (deploySeq fd l1).1 l2).2) := by
  induction l1 with
  | nil => intro fd; simp [deploySeq]
  | cons s rest ih => intro fd; simp [deploySeq, ih]

/-- Claim C3: the job queue has fixed capacity 50, and submitting 51
jobs while nothing drains makes the first 50 succeed (each returning
its job id) and the 51st fail synchronously with the queue-full error
(deploy is a plain function, so the rejection is immediate, with no
blocking and no retry). -/
theorem deploy_backpressure_fifty_then_full :
    jobSize = 50 ∧
    ∀ (fd : FileDeployer) (subs : List (String × String × String)),
      subs.length = 51 → fd.serde = defaultSerde →
      (deploySeq (start fd) subs).2 =
        (subs.take 50).map (fun s => Except.ok s.1) ++
          [.error "buffer is full, re-try later"] := by
  refine ⟨rfl, ?_⟩
  intro fd subs h51 hserde
  have hsplit : subs = subs.take 50 ++ subs.drop 50 := (List.take_append_drop _ _).symm
  have hlen50 : (subs.take 50).length = 50 := by
    simp [List.length_take, h51]
  have hlen1 : (subs.drop 50).length = 1 := by
    simp [List.length_drop, h51]
  obtain ⟨s, hs⟩ := List.length_eq_one.mp hlen1
  have hfirst := deploySeq_all_ok (subs.take 50) (start fd) rfl hserde
    (by simp [start, hlen50, jobSize])
  conv_lhs => rw [hsplit]
  rw [deploySeq_append, hs]
  have hfull : ¬ (deploySeq (start fd) (subs.take 50)).1.jobs.length <
      (deploySeq (start fd) (subs.take 50)).1.jobsCap := by
    rw [hfirst.2.2.2.2, hfirst.2.2.2.1]
    simp [start, hlen50, jobSize]
  have hlast := deploy_full_state (deploySeq (start fd) (subs.take 50)).1 s.1 s.2.1 s.2.2
    hfirst.2.1 hfirst.2.2.1 hfull
  simp [deploySeq, hlast, hfirst.1]

theorem deploy_backpressure_fifty_then_full_witness :
    (deploySeq (start ⟨[], [], 0, true, defaultSerde, ⟨[]⟩, []⟩)
        (List.replicate 51 ("a", "k", "u"))).2 =
      ((List.replicate 51 ("a", "k", "u")).take 50).map (fun s => Except.ok s.1) ++
        [.error "buffer is full, re-try later"] :=
  deploy_backpressure_fifty_then_full.2 ⟨[], [], 0, true, defaultSerde, ⟨[]⟩, []⟩
    (List.replicate 51 ("a", "k", "u")) (by simp) rfl

/-- Claim C7: GetLatestTag returns the sentinel "unknown" and no error
for a release key with no recorded tag, and returns the tag t after a
successful install of that key carrying a non-empty tag t. -/
theorem getLatestTag_sentinel_and_update :
    (∀ (tags : List (String × String)) (releaseID : String),
        tags.lookup releaseID = none →
        getLatestTag tags releaseID = .ok "unknown") ∧
    (∀ (tags : List (String × String)) (releaseID t : String),
        t ≠ "" →
        getLatestTag (recordLatestTag tags releaseID t) releaseID = .ok t) := by
  constructor
  · intro tags releaseID h
    simp [getLatestTag, h]
  · intro tags releaseID t h
    have hset : (kvSet tags releaseID t).lookup releaseID = some t := by
      induction tags with
      | nil => simp [kvSet, List.lookup]
      | cons hd rest ih =>
        obtain ⟨k0, v0⟩ := hd
        by_cases h0 : k0 = releaseID
        · simp [kvSet, h0, List.lookup]
        · simp only [kvSet, if_neg h0, List.lookup]
          have : (releaseID == k0) = false := by
            simp [beq_eq_false_iff_ne]
            exact fun hk => h0 hk.symm
          simp [this, ih]
    simp [recordLatestTag, h, getLatestTag, hset]

theorem getLatestTag_sentinel_and_update_witness :
    getLatestTag [] "XX" = .ok "unknown" ∧
    getLatestTag (recordLatestTag [] "XX" "v1.2.3") "XX" = .ok "v1.2.3" :=
  ⟨getLatestTag_sentinel_and_update.1 [] "XX" rfl,
   getLatestTag_sentinel_and_update.2 [] "XX" "v1.2.3" (by decide)⟩

/-- Claim C8: once the stop flag is set, the worker loop dequeues at
most one job and exits without processing it: the filesystem is
untouched, the store is untouched (so every queued job keeps its
"created" status forever), and the jobs after the dequeued one stay in
the closed channel, never processed. -/
theorem stop_drops_queued_jobs
    (client : HTTPClient) (gen : FS → Path) (fd : FileDeployer) (fs : FS)
    (hstop : fd.stop = true) :
    processJobs client gen fd fs = ({ fd with jobs := fd.jobs.tail }, fs) ∧
    (processJobs client gen fd fs).1.db = fd.db ∧
    ∀ key, getStatus (processJobs client gen fd fs).1 key = getStatus fd key := by
  have h1 : processJobs client gen fd fs = ({ fd with jobs := fd.jobs.tail }, fs) := by
    cases hj : fd.jobs with
    | nil => simp [processJobs, hj, processJobsAux]
    | cons j rest => simp [processJobs, hj, processJobsAux, hstop]
  refine ⟨h1, ?_, ?_⟩
  · rw [h1]
  · intro key
    rw [h1]
    rfl

theorem stop_drops_queued_jobs_witness :
    processJobs (fun _ => .error "x") (fun _ => ["tmp"])
        ⟨[("j", ⟨"created", "job has been created"⟩)], [⟨"j", "k", "u"⟩], 50, true,
         defaultSerde, ⟨[]⟩, []⟩ ⟨[], []⟩ =
      ({ db := [("j", ⟨"created", "job has been created"⟩)],
         jobs := ([⟨"j", "k", "u"⟩] : List Job).tail, jobsCap := 50, stop := true,
         serde := defaultSerde, config := ⟨[]⟩, log := [] }, ⟨[], []⟩) ∧
    (processJobs (fun _ => .error "x") (fun _ => ["tmp"])
        ⟨[("j", ⟨"created", "job has been created"⟩)], [⟨"j", "k", "u"⟩], 50, true,
         defaultSerde, ⟨[]⟩, []⟩ ⟨[], []⟩).1.db =
      [("j", ⟨"created", "job has been created"⟩)] ∧
    ∀ key,
      getStatus (processJobs (fun _ => .error "x") (fun _ => ["tmp"])
          ⟨[("j", ⟨"created", "job has been created"⟩)], [⟨"j", "k", "u"⟩], 50, true,
           defaultSerde, ⟨[]⟩, []⟩ ⟨[], []⟩).1 key =
        getStatus ⟨[("j", ⟨"created", "job has been created"⟩)], [⟨"j", "k", "u"⟩], 50,
          true, defaultSerde, ⟨[]⟩, []⟩ key :=
  stop_drops_queued_jobs (fun _ => .error "x") (fun _ => ["tmp"])
    ⟨[("j", ⟨"created", "job has been created"⟩)], [⟨"j", "k", "u"⟩], 50, true,
     defaultSerde, ⟨[]⟩, []⟩ ⟨[], []⟩ rfl

/-- Claim C10: when Deploy fails with the queue-full error, the
"created" status for the freshly generated job id has nevertheless been
persisted and remains in the store, so a later GetStatus on that id
returns "created" instead of a not-found error. -/
theorem deploy_queue_full_keeps_created
    (fd : FileDeployer) (newId releaseID releaseURL : String) (fd' : FileDeployer)
    (hserde : fd.serde = defaultSerde)
    (hfail : deploy fd newId releaseID releaseURL =
      (fd', .error "buffer is full, re-try later")) :
    fd'.db = kvSet fd.db newId ⟨"created", "job has been created"⟩ ∧
    getStatus fd' newId = .ok ⟨"created", "job has been created"⟩ := by
  cases hstop : fd.stop with
  | true =>
    rw [deploy, hstop] at hfail
    simp at hfail
  | false =>
    by_cases hlt : fd.jobs.length < fd.jobsCap
    · rw [deploy_ok_state fd newId releaseID releaseURL hstop hserde hlt] at hfail
      simp at hfail
    · rw [deploy_full_state fd newId releaseID releaseURL hstop hserde hlt] at hfail
      obtain ⟨hfd, -⟩ := Prod.mk.injEq .. ▸ hfail
      subst hfd
      simp [getStatus, lookup_kvSet_self, hserde, defaultSerde]

theorem deploy_queue_full_keeps_created_witness :
    (deploy ⟨[], [], 0, false, defaultSerde, ⟨[]⟩, []⟩ "id1" "k" "u").1.db =
      kvSet [] "id1" ⟨"created", "job has been created"⟩ ∧
    getStatus (deploy ⟨[], [], 0, false, defaultSerde, ⟨[]⟩, []⟩ "id1" "k" "u").1 "id1" =
      .ok ⟨"created", "job has been created"⟩ :=
  deploy_queue_full_keeps_created ⟨[], [], 0, false, defaultSerde, ⟨[]⟩, []⟩
    "id1" "k" "u" _ rfl rfl

/-! Helper lemmas about the worker loop. -/

theorem saveJobStatus_ok_cases (fd : FileDeployer) (jid st msg : String)
    (fd' : FileDeployer) (h : saveJobStatus fd jid st msg = .ok fd') :
    ∃ v, fd.serde.marshal ⟨st, msg⟩ = .ok v ∧
      fd' = { fd with db := kvSet fd.db jid v } := by
  unfold saveJobStatus at h
  cases hm : fd.serde.marshal ⟨st, msg⟩ with
  | error e => rw [hm] at h; simp at h
  | ok v =>
    rw [hm] at h
    simp only [Except.ok.injEq] at h
    exact ⟨v, rfl, h.symm⟩

theorem saveJobStatus_default (fd : FileDeployer) (jid st msg : String)
    (hserde : fd.serde = defaultSerde) :
    saveJobStatus fd jid st msg = .ok { fd with db := kvSet fd.db jid ⟨st, msg⟩ } := by
  simp [saveJobStatus, hserde, defaultSerde]

theorem processJobsAux_fields (client : HTTPClient) (gen : FS → Path) :
    ∀ (jobs : List Job) (fd : FileDeployer) (fs : FS),
    (processJobsAux client gen jobs fd fs).1.serde = fd.serde ∧
    (processJobsAux client gen jobs fd fs).1.config = fd.config ∧
    (processJobsAux client gen jobs fd fs).1.stop = fd.stop ∧
    (processJobsAux client gen jobs fd fs).1.jobsCap = fd.jobsCap := by
  intro jobs
  induction jobs with
  | nil => intro fd fs; exact ⟨rfl, rfl, rfl, rfl⟩
  | cons j rest ih =>
    intro fd fs
    cases hstop : fd.stop with
    | true => simp [processJobsAux, hstop]
    | false =>
      cases hh : handleJob fd.config client gen fs j with
      | mk fs' res =>
        cases res with
        | error e =>
          cases hsv : saveJobStatus fd j.id "failed" e with
          | error e2 =>
            simpa [processJobsAux, hstop, hh, hsv] using ih _ fs'
          | ok fd' =>
            obtain ⟨v, hm, rfl⟩ := saveJobStatus_ok_cases fd j.id "failed" e fd' hsv
            simpa [processJobsAux, hstop, hh, hsv] using ih _ fs'
        | ok u =>
          cases hsv : saveJobStatus fd j.id "ok" "job done" with
          | error e2 =>
            simpa [processJobsAux, hstop, hh, hsv] using ih _ fs'
          | ok fd' =>
            obtain ⟨v, hm, rfl⟩ := saveJobStatus_ok_cases fd j.id "ok" "job done" fd' hsv
            simpa [processJobsAux, hstop, hh, hsv] using ih _ fs'

theorem processJobsAux_db_other_keys (client : HTTPClient) (gen : FS → Path) :
    ∀ (jobs : List Job) (fd : FileDeployer) (fs : FS) (key : String),
    (∀ jb ∈ jobs, jb.id ≠ key) →
    (processJobsAux client gen jobs fd fs).1.db.lookup key = fd.db.lookup key := by
  intro jobs
  induction jobs with
  | nil => intro fd fs key _; rfl
  | cons j rest ih =>
    intro fd fs key hids
    have hj : j.id ≠ key := hids j (by simp)
    have hrest : ∀ jb ∈ rest, jb.id ≠ key := fun jb hm => hids jb (by simp [hm])
    cases hstop : fd.stop with
    | true => simp [processJobsAux, hstop]
    | false =>
      cases hh : handleJob fd.config client gen fs j with
      | mk fs' res =>
        cases res with
        | error e =>
          cases hsv : saveJobStatus fd j.id "failed" e with
          | error e2 =>
            simpa [processJobsAux, hstop, hh, hsv] using ih _ fs' key hrest
          | ok fd' =>
            obtain ⟨v, hm, rfl⟩ := saveJobStatus_ok_cases fd j.id "failed" e fd' hsv
            rw [show processJobsAux client gen (j :: rest) fd fs =
              processJobsAux client gen rest { fd with db := kvSet fd.db j.id v } fs' by
              simp [processJobsAux, hstop, hh, hsv]]
            rw [ih _ fs' key hrest]
            exact lookup_kvSet_ne fd.db j.id key v (fun hk => hj hk.symm)
        | ok u =>
          cases hsv : saveJobStatus fd j.id "ok" "job done" with
          | error e2 =>
            simpa [processJobsAux, hstop, hh, hsv] using ih _ fs' key hrest
          | ok fd' =>
            obtain ⟨v, hm, rfl⟩ := saveJobStatus_ok_cases fd j.id "ok" "job done" fd' hsv
            rw [show processJobsAux client gen (j :: rest) fd fs =
              processJobsAux client gen rest { fd with db := kvSet fd.db j.id v } fs' by
              simp [processJobsAux, hstop, hh, hsv]]
            rw [ih _ fs' key hrest]
            exact lookup_kvSet_ne fd.db j.id key v (fun hk => hj hk.symm)

/-- Claim C5: for a release key absent from the configured mapping, the
install attempt fails with a not-found error naming the key, nothing is
written to the filesystem for that job, and the job's final recorded
status after the worker loop finishes is "failed" with that message. -/
theorem unmapped_release_fails_named_key
    (client : HTTPClient) (gen : FS → Path) (fd : FileDeployer) (fs : FS)
    (j : Job) (rest : List Job)
    (hjobs : fd.jobs = j :: rest)
    (hstop : fd.stop = false)
    (hserde : fd.serde = defaultSerde)
    (hconf : fd.config.entries.lookup j.releaseID = none)
    (hids : ∀ jb ∈ rest, jb.id ≠ j.id) :
    handleJob fd.config client gen fs j =
      (fs, .error ("releaseID " ++ goQuote j.releaseID ++ " not found from the config")) ∧
    getStatus (processJobs client gen fd fs).1 j.id =
      .ok ⟨"failed", "releaseID " ++ goQuote j.releaseID ++ " not found from the config"⟩ := by
  have h1 : handleJob fd.config client gen fs j =
      (fs, .error ("releaseID " ++ goQuote j.releaseID ++ " not found from the config")) := by
    simp [handleJob, hconf]
  refine ⟨h1, ?_⟩
  have hstep : processJobsAux client gen (j :: rest) { fd with jobs := [] } fs =
      processJobsAux client gen rest
        { fd with jobs := [], db := kvSet fd.db j.id ⟨"failed", "releaseID " ++ goQuote j.releaseID ++ " not found from the config"⟩ }
        fs := by
    have hsv := saveJobStatus_default { fd with jobs := ([] : List Job) } j.id "failed"
      ("releaseID " ++ goQuote j.releaseID ++ " not found from the config") hserde
    rw [hstop] at hsv
    simp only [processJobsAux, hstop, h1]
    simp [hsv]
  have hlook := processJobsAux_db_other_keys client gen rest
    { fd with jobs := [], db := kvSet fd.db j.id ⟨"failed", "releaseID " ++ goQuote j.releaseID ++ " not found from the config"⟩ }
    fs j.id hids
  have hfields := processJobsAux_fields client gen rest
    { fd with jobs := [], db := kvSet fd.db j.id ⟨"failed", "releaseID " ++ goQuote j.releaseID ++ " not found from the config"⟩ }
    fs
  simp only [processJobs, hjobs, hstep]
  have hser : (processJobsAux client gen rest
      { fd with jobs := [], db := kvSet fd.db j.id ⟨"failed", "releaseID " ++ goQuote j.releaseID ++ " not found from the config"⟩ }
      fs).1.serde = defaultSerde := by
    rw [hfields.1]
    exact hserde
  have hl2 : (processJobsAux client gen rest
      { fd with jobs := [], db := kvSet fd.db j.id ⟨"failed", "releaseID " ++ goQuote j.releaseID ++ " not found from the config"⟩ }
      fs).1.db.lookup j.id =
      some ⟨"failed", "releaseID " ++ goQuote j.releaseID ++ " not found from the config"⟩ := by
    rw [hlook]
    exact lookup_kvSet_self fd.db j.id _
  simp [getStatus, hl2, hser, defaultSerde]

theorem unmapped_release_fails_named_key_witness :
    handleJob (⟨[]⟩ : Config) (fun _ => .error "x") (fun _ => ["tmp"]) ⟨[], []⟩
        ⟨"j1", "rk", "u"⟩ =
      (⟨[], []⟩, .error ("releaseID " ++ goQuote "rk" ++ " not found from the config")) ∧
    getStatus (processJobs (fun _ => .error "x") (fun _ => ["tmp"])
        ⟨[], [⟨"j1", "rk", "u"⟩], 50, false, defaultSerde, ⟨[]⟩, []⟩ ⟨[], []⟩).1 "j1" =
      .ok ⟨"failed", "releaseID " ++ goQuote "rk" ++ " not found from the config"⟩ :=
  unmapped_release_fails_named_key (fun _ => .error "x") (fun _ => ["tmp"])
    ⟨[], [⟨"j1", "rk", "u"⟩], 50, false, defaultSerde, ⟨[]⟩, []⟩ ⟨[], []⟩
    ⟨"j1", "rk", "u"⟩ [] rfl rfl rfl rfl (by simp)

/-- Claim C6: for every job whose install fails, the worker persists
status "failed" carrying the error's description (leaving the log
alone); if persisting that failure status itself fails, the state
changes only by a log entry recording the secondary error, which is
never part of any returned value; and in both cases the loop goes on to
the next job. -/
theorem worker_failure_persists_or_logs
    (client : HTTPClient) (gen : FS → Path) (fd : FileDeployer) (fs : FS)
    (j : Job) (rest : List Job) (e : String)
    (hstop : fd.stop = false)
    (hfail : (handleJob fd.config client gen fs j).2 = .error e) :
    (fd.serde = defaultSerde →
      processJobsAux client gen (j :: rest) fd fs =
        processJobsAux client gen rest
          { fd with db := kvSet fd.db j.id ⟨"failed", e⟩ }
          (handleJob fd.config client gen fs j).1) ∧
    (∀ e2, saveJobStatus fd j.id "failed" e = .error e2 →
      processJobsAux client gen (j :: rest) fd fs =
        processJobsAux client gen rest
          { fd with log := fd.log ++
              [(e2, "job failed: failed to save status. Error was: " ++ e)] }
          (handleJob fd.config client gen fs j).1) := by
  have hh : handleJob fd.config client gen fs j =
      ((handleJob fd.config client gen fs j).1, .error e) := by
    rw [← hfail]
  constructor
  · intro hserde
    have hsv := saveJobStatus_default fd j.id "failed" e hserde
    conv_lhs => rw [processJobsAux, hh]
    simp [hstop, hsv]
  · intro e2 hsv
    conv_lhs => rw [processJobsAux, hh]
    simp [hstop, hsv]

theorem worker_failure_persists_or_logs_witness :
    ((⟨[], [], 50, false, defaultSerde, ⟨[]⟩, []⟩ : FileDeployer).serde = defaultSerde →
      processJobsAux (fun _ => .error "x") (fun _ => ["tmp"])
          ([⟨"j1", "rk", "u"⟩] : List Job)
          ⟨[], [], 50, false, defaultSerde, ⟨[]⟩, []⟩ ⟨[], []⟩ =
        processJobsAux (fun _ => .error "x") (fun _ => ["tmp"]) []
          ⟨kvSet [] "j1" ⟨"failed", "releaseID " ++ goQuote "rk" ++ " not found from the config"⟩,
           [], 50, false, defaultSerde, ⟨[]⟩, []⟩
          (handleJob (⟨[]⟩ : Config) (fun _ => .error "x") (fun _ => ["tmp"]) ⟨[], []⟩
            ⟨"j1", "rk", "u"⟩).1) ∧
    (∀ e2, saveJobStatus (⟨[], [], 50, false, defaultSerde, ⟨[]⟩, []⟩ : FileDeployer)
        "j1" "failed" ("releaseID " ++ goQuote "rk" ++ " not found from the config") =
        .error e2 →
      processJobsAux (fun _ => .error "x") (fun _ => ["tmp"])
          ([⟨"j1", "rk", "u"⟩] : List Job)
          ⟨[], [], 50, false, defaultSerde, ⟨[]⟩, []⟩ ⟨[], []⟩ =
        processJobsAux (fun _ => .error "x") (fun _ => ["tmp"]) []
          ⟨[], [], 50, false, defaultSerde, ⟨[]⟩,
           [(e2, "job failed: failed to save status. Error was: " ++
              ("releaseID " ++ goQuote "rk" ++ " not found from the config"))]⟩
          (handleJob (⟨[]⟩ : Config) (fun _ => .error "x") (fun _ => ["tmp"]) ⟨[], []⟩
            ⟨"j1", "rk", "u"⟩).1) :=
  worker_failure_persists_or_logs (fun _ => .error "x") (fun _ => ["tmp"])
    ⟨[], [], 50, false, defaultSerde, ⟨[]⟩, []⟩ ⟨[], []⟩ ⟨"j1", "rk", "u"⟩ []
    ("releaseID " ++ goQuote "rk" ++ " not found from the config") rfl rfl

/-! Claims about the installer's handling of malformed archives and of
file entries. -/

/-- Claim C4, counterexample to the quoted message: on an archive whose
first entry is a regular file the code fails with the message "tar must
be a folder" (wrapped by handleJob), not "archive must be a folder" as
the claim states. -/
theorem saveTar_not_folder_message_counterexample :
    saveTar (.ok [.file ["x"] "Z"]) ["t"] ⟨[], []⟩ = .error "tar must be a folder" ∧
    (handleJob (⟨[("rk", ["srv"])]⟩ : Config) (fun _ => .ok (.ok [.file ["x"] "Z"]))
        (fun _ => ["tmp"]) ⟨[], []⟩ ⟨"j1", "rk", "u"⟩).2 =
      .error "failed to save tar file: tar must be a folder" ∧
    "tar must be a folder" ≠ "archive must be a folder" ∧
    "failed to save tar file: tar must be a folder" ≠
      "failed to save tar file: archive must be a folder" := by
  refine ⟨rfl, rfl, ?_, ?_⟩ <;> decide

/-- Claim C4 as amended: for every archive whose first tar entry is not
a directory, the install fails with the format error "tar must be a
folder" (surfaced by handleJob as "failed to save tar file: tar must be
a folder"), and the filesystem — in particular the target directory —
is left exactly as it was: the temporary scratch directory is created
and removed again, and nothing else is touched. -/
theorem handleJob_not_folder_leaves_fs_untouched
    (conf : Config) (client : HTTPClient) (gen : FS → Path) (fs : FS) (j : Job)
    (target : Path) (name : Path) (c : String) (rest : List TarEntry)
    (hconf : conf.entries.lookup j.releaseID = some target)
    (hclient : client j.releaseURL = .ok (.ok (.file name c :: rest)))
    (hfreshd : ∀ d ∈ fs.dirs, (gen fs).isPrefixOf d = false)
    (hfreshf : ∀ f ∈ fs.files, (gen fs).isPrefixOf f.path = false) :
    handleJob conf client gen fs j =
      (fs, .error "failed to save tar file: tar must be a folder") := by
  have hrm : removeAll { fs with dirs := fs.dirs ++ [gen fs] } (gen fs) = fs := by
    obtain ⟨dirs, files⟩ := fs
    simp only [removeAll]
    have h1 : dirs.filter (fun d => !((gen ⟨dirs, files⟩).isPrefixOf d)) = dirs :=
      List.filter_eq_self.mpr (fun d hdm => by simp [hfreshd d hdm])
    have h2 : ([gen ⟨dirs, files⟩] : List Path).filter
        (fun d => !((gen ⟨dirs, files⟩).isPrefixOf d)) = [] := by
      simp [List.isPrefixOf_iff_prefix]
    have h3 : files.filter (fun f => !((gen ⟨dirs, files⟩).isPrefixOf f.path)) = files :=
      List.filter_eq_self.mpr (fun f hfm => by simp [hfreshf f hfm])
    simp only [List.filter_append, h1, h2, h3, List.append_nil]
  simp only [handleJob, hconf, hclient, saveTar, hrm]
  rfl

theorem handleJob_not_folder_leaves_fs_untouched_witness :
    handleJob (⟨[("rk", ["srv"])]⟩ : Config) (fun _ => .ok (.ok [.file ["x"] "Z", .dir ["d"]]))
        (fun _ => ["tmp"]) ⟨[["srv"]], [⟨["srv", "old"], "O", 420⟩]⟩ ⟨"j1", "rk", "u"⟩ =
      (⟨[["srv"]], [⟨["srv", "old"], "O", 420⟩]⟩,
       .error "failed to save tar file: tar must be a folder") :=
  handleJob_not_folder_leaves_fs_untouched (⟨[("rk", ["srv"])]⟩ : Config)
    (fun _ => .ok (.ok [.file ["x"] "Z", .dir ["d"]])) (fun _ => ["tmp"])
    ⟨[["srv"]], [⟨["srv", "old"], "O", 420⟩]⟩ ⟨"j1", "rk", "u"⟩
    ["srv"] ["x"] "Z" [.dir ["d"]] rfl rfl (by decide) (by decide)

/-- Claim C9, counterexample: untar opens file entries without
truncation, so writing the entry "a" with content "Z" over a
pre-existing file of content "AB" in the scratch area yields "ZB", not
the entry's content "Z" as the claim states. -/
theorem untar_no_truncate_counterexample :
    untar ["t"] [.file ["a"] "Z"] ⟨[["t"]], [⟨["t", "a"], "AB", 493⟩]⟩ =
      .ok ⟨[["t"]], [⟨["t", "a"], "ZB", 493⟩]⟩ ∧
    ("ZB" : String) ≠ "Z" := by
  refine ⟨?_, by decide⟩
  rfl

/-- Claim C9 as amended: a regular-file tar entry written to a fresh
path in the scratch area is created with fixed permission bits 0755 and
holds exactly the entry's content; but the write does not truncate, so
a second entry with the same name results in the later entry's bytes
followed by whatever tail of the earlier content extends beyond them
(the earlier file's permission bits are kept). -/
theorem untar_write_semantics
    (dest name : Path) (c1 c2 : String) (fs : FS)
    (hparent : fs.dirs.contains ((dest ++ name).dropLast) = true)
    (hfresh : ∀ f ∈ fs.files, f.path ≠ dest ++ name) :
    untar dest [.file name c1] fs =
      .ok { fs with files := fs.files ++ [⟨dest ++ name, c1, 493⟩] } ∧
    untar dest [.file name c1, .file name c2] fs =
      .ok { fs with files := fs.files ++ [⟨dest ++ name, c2 ++ c1.drop c2.length, 493⟩] } := by
  have hnone : fs.files.find? (fun f => f.path == dest ++ name) = none :=
    List.find?_eq_none.mpr (fun f hf => by simp [hfresh f hf])
  have hw1 : openWrite fs (dest ++ name) c1 =
      .ok { fs with files := fs.files ++ [⟨dest ++ name, c1, 493⟩] } := by
    simp only [openWrite, hparent, hnone]
    rfl
  constructor
  · simp [untar, hw1]
  · have hparent2 : ({ fs with files := fs.files ++ [⟨dest ++ name, c1, 493⟩] } : FS).dirs.contains
        ((dest ++ name).dropLast) = true := hparent
    have hfind2 : (fs.files ++ [(⟨dest ++ name, c1, 493⟩ : FileEntry)]).find?
        (fun f => f.path == dest ++ name) = some ⟨dest ++ name, c1, 493⟩ := by
      rw [List.find?_append, hnone]
      simp
    have hmap : (fs.files ++ [(⟨dest ++ name, c1, 493⟩ : FileEntry)]).map
        (fun g => if g.path == dest ++ name
          then { g with content := writeContent c2 g.content } else g) =
        fs.files ++ [⟨dest ++ name, c2 ++ c1.drop c2.length, 493⟩] := by
      rw [List.map_append]
      have hid : fs.files.map
          (fun g => if g.path == dest ++ name
            then { g with content := writeContent c2 g.content } else g) = fs.files := by
        rw [show fs.files.map (fun g => if g.path == dest ++ name
            then { g with content := writeContent c2 g.content } else g) =
            fs.files.map id from
          List.map_congr_left (fun f hf => by
            simp [beq_eq_false_iff_ne.mpr (hfresh f hf)]), List.map_id]
      rw [hid]
      simp [writeContent]
    have hw2 : openWrite { fs with files := fs.files ++ [⟨dest ++ name, c1, 493⟩] }
        (dest ++ name) c2 =
        .ok { fs with files := fs.files ++ [⟨dest ++ name, c2 ++ c1.drop c2.length, 493⟩] } := by
      simp only [openWrite, hparent2, hfind2]
      simp only [Bool.not_true, Bool.false_eq_true, if_false]
      rw [hmap]
    simp [untar, hw1, hw2]

theorem untar_write_semantics_witness :
    untar ["t"] [.file ["a"] "AB"] ⟨[["t"]], []⟩ =
      .ok ⟨[["t"]], [⟨["t", "a"], "AB", 493⟩]⟩ ∧
    untar ["t"] [.file ["a"] "AB", .file ["a"] "Z"] ⟨[["t"]], []⟩ =
      .ok ⟨[["t"]], [⟨["t", "a"], "Z" ++ "AB".drop 1, 493⟩]⟩ :=
  untar_write_semantics ["t"] ["a"] "AB" "Z" ⟨[["t"]], []⟩ (by decide)
    (fun f hf => absurd hf (List.not_mem_nil f))

/-! Helper lemmas for the install round trip. -/

theorem isPre_false_iff (a b : Path) : a.isPrefixOf b = false ↔ ¬ a <+: b := by
  constructor
  · intro h hp
    have ht := List.isPrefixOf_iff_prefix.mpr hp
    rw [ht] at h
    simp at h
  · intro hp
    cases hb : a.isPrefixOf b
    · rfl
    · exact absurd (List.isPrefixOf_iff_prefix.mp hb) hp

theorem not_prefix_of_incomparable {a b p : Path} (h1 : ¬ a <+: b) (h2 : ¬ b <+: a)
    (hb : b <+: p) : ¬ a <+: p := fun hap =>
  (List.prefix_or_prefix_of_prefix hap hb).elim h1 h2

theorem mkdirAll_contains (fs : FS) (p : Path) (h : p ≠ []) :
    (mkdirAll fs p).dirs.contains p = true := by
  have hmem : p ∈ (mkdirAll fs p).dirs := by
    unfold mkdirAll
    simp only [List.mem_append]
    by_cases hc : fs.dirs.contains p = true
    · exact Or.inl (List.elem_iff.mp hc)
    · refine Or.inr (List.mem_filter.mpr ⟨?_, ?_⟩)
      · unfold pathInits
        refine List.mem_map.mpr ⟨p.length - 1, List.mem_range.mpr ?_, ?_⟩
        · have : 0 < p.length := List.length_pos.mpr h
          omega
        · have hlen : p.length - 1 + 1 = p.length := by
            have : 0 < p.length := List.length_pos.mpr h
            omega
          rw [hlen, List.take_length]
      · simp only [Bool.not_eq_true']
        exact Bool.not_eq_true _ ▸ (by simpa using hc)
  exact List.elem_iff.mpr hmem

theorem mkdirAll_files (fs : FS) (p : Path) : (mkdirAll fs p).files = fs.files := rfl

theorem untar_fresh_files (dest R : Path) :
    ∀ (pairs : List (String × String)) (fs : FS),
    fs.dirs.contains (dest ++ R) = true →
    (pairs.map Prod.fst).Nodup →
    (∀ nc ∈ pairs, ∀ f ∈ fs.files, f.path ≠ dest ++ R ++ [nc.1]) →
    untar dest (pairs.map (fun nc => TarEntry.file (R ++ [nc.1]) nc.2)) fs =
      .ok { fs with files :=
        fs.files ++ pairs.map (fun nc => ⟨dest ++ R ++ [nc.1], nc.2, 493⟩) } := by
  intro pairs
  induction pairs with
  | nil =>
    intro fs _ _ _
    simp [untar]
  | cons nc rest ih =>
    intro fs hparent hnodup hfresh
    obtain ⟨n, c⟩ := nc
    have htarget : dest ++ (R ++ [n]) = dest ++ R ++ [n] := (List.append_assoc dest R [n]).symm
    have hdrop : (dest ++ R ++ [n]).dropLast = dest ++ R := List.dropLast_concat
    have hnone : fs.files.find? (fun f => f.path == dest ++ R ++ [n]) = none :=
      List.find?_eq_none.mpr (fun f hf => by
        simpa using hfresh (n, c) (by simp) f hf)
    have hw : openWrite fs (dest ++ (R ++ [n])) c =
        .ok { fs with files := fs.files ++ [⟨dest ++ R ++ [n], c, 493⟩] } := by
      rw [htarget]
      simp only [openWrite, hdrop, hparent, hnone]
      rfl
    have hstep : untar dest
        (((n, c) :: rest).map (fun nc => TarEntry.file (R ++ [nc.1]) nc.2)) fs =
        untar dest (rest.map (fun nc => TarEntry.file (R ++ [nc.1]) nc.2))
          { fs with files := fs.files ++ [⟨dest ++ R ++ [n], c, 493⟩] } := by
      simp only [List.map_cons, untar, hw]
    have hmapcons : List.map Prod.fst ((n, c) :: rest) = n :: List.map Prod.fst rest := rfl
    rw [hmapcons] at hnodup
    have hcons := List.nodup_cons.mp hnodup
    have hfresh2 : ∀ mc ∈ rest,
        ∀ f ∈ ({ fs with files :=
          fs.files ++ [⟨dest ++ R ++ [n], c, 493⟩] } : FS).files,
        f.path ≠ dest ++ R ++ [mc.1] := by
      intro mc hmc f hf
      rcases List.mem_append.mp hf with hl | hr
      · exact hfresh mc (by simp [hmc]) f hl
      · have hfe : f = ⟨dest ++ R ++ [n], c, 493⟩ := by simpa using hr
        subst hfe
        intro heq
        have h1 : ([n] : Path) = [mc.1] := List.append_cancel_left heq
        have h2 : n = mc.1 := by simpa using h1
        exact hcons.1 (h2 ▸ List.mem_map_of_mem Prod.fst hmc)
    have hih := ih { fs with files := fs.files ++ [⟨dest ++ R ++ [n], c, 493⟩] }
      hparent hcons.2 hfresh2
    rw [hstep, hih]
    simp [List.append_assoc]

/-- Claim C1: for an archive whose root directory holds a set of
distinctly named files, a successful install leaves the target
directory holding exactly those files with identical byte content, and
every file previously under the target that is not in the archive is
gone.  The freshness hypotheses are exactly what ioutil.TempDir
guarantees for the scratch directory. -/
theorem hodor_install_roundtrip
    (conf : Config) (client : HTTPClient) (gen : FS → Path) (fs : FS) (j : Job)
    (target R : Path) (pairs : List (String × String))
    (hconf : conf.entries.lookup j.releaseID = some target)
    (hclient : client j.releaseURL =
      .ok (.ok (.dir R :: pairs.map (fun nc => TarEntry.file (R ++ [nc.1]) nc.2))))
    (hnodup : (pairs.map Prod.fst).Nodup)
    (hfreshf : ∀ f ∈ fs.files, (gen fs).isPrefixOf f.path = false)
    (ht1 : target.isPrefixOf (gen fs) = false)
    (ht2 : (gen fs).isPrefixOf target = false) :
    (handleJob conf client gen fs j).2 = .ok () ∧
    (handleJob conf client gen fs j).1.files =
      fs.files.filter (fun f => !(target.isPrefixOf f.path)) ++
        pairs.map (fun nc => ⟨target ++ [nc.1], nc.2, 493⟩) := by
  have hPf : ∀ f ∈ fs.files, ¬ ((gen fs) <+: f.path) := fun f hf =>
    (isPre_false_iff _ _).mp (hfreshf f hf)
  have hT1 : ¬ (target <+: gen fs) := (isPre_false_iff _ _).mp ht1
  have hT2 : ¬ ((gen fs) <+: target) := (isPre_false_iff _ _).mp ht2
  have htne : gen fs ≠ [] := fun h => hT2 (by rw [h]; exact List.nil_prefix)
  set fs1 : FS := { fs with dirs := fs.dirs ++ [gen fs] } with hfs1def
  set fs2 : FS := mkdirAll fs1 (gen fs ++ R) with hfs2def
  set newFiles : List FileEntry :=
    pairs.map (fun nc => ⟨gen fs ++ R ++ [nc.1], nc.2, 493⟩) with hNFdef
  set fs3 : FS := { fs2 with files := fs2.files ++ newFiles } with hfs3def
  have hpre_tmp_entry : ∀ nc : String × String, (gen fs) <+: gen fs ++ R ++ [nc.1] := by
    intro nc
    rw [List.append_assoc]
    exact List.prefix_append _ _
  have hpre_tmp_root : (gen fs) <+: gen fs ++ R := List.prefix_append _ _
  have hT_entry : ∀ nc : String × String, ¬ target <+: gen fs ++ R ++ [nc.1] := fun nc =>
    not_prefix_of_incomparable hT1 hT2 (hpre_tmp_entry nc)
  have hT_root : ¬ target <+: gen fs ++ R :=
    not_prefix_of_incomparable hT1 hT2 hpre_tmp_root
  have htmp_target_entry : ∀ nc : String × String, ¬ (gen fs) <+: target ++ [nc.1] :=
    fun nc => not_prefix_of_incomparable hT2 hT1 (List.prefix_append target [nc.1])
  have hroot_files : ∀ f ∈ fs.files, ¬ (gen fs ++ R) <+: f.path := fun f hf hpre =>
    hPf f hf (hpre_tmp_root.trans hpre)
  have hc2 : fs2.dirs.contains (gen fs ++ R) = true := by
    rw [hfs2def]
    exact mkdirAll_contains fs1 (gen fs ++ R)
      (fun h => htne (List.append_eq_nil.mp h).1)
  have hfiles2 : fs2.files = fs.files := rfl
  have hfr2 : ∀ nc ∈ pairs, ∀ f ∈ fs2.files, f.path ≠ gen fs ++ R ++ [nc.1] := by
    intro nc hnc f hf heq
    rw [hfiles2] at hf
    exact hPf f hf (by rw [heq]; exact hpre_tmp_entry nc)
  have huntar := untar_fresh_files (gen fs) R pairs fs2 hc2 hnodup hfr2
  have hsave : saveTar
      (.ok (.dir R :: pairs.map (fun nc => TarEntry.file (R ++ [nc.1]) nc.2)))
      (gen fs) fs1 = .ok (R, fs3) := by
    simp only [saveTar]
    rw [← hfs2def, huntar]
  have hfiles3 : fs3.files = fs.files ++ newFiles := by
    show fs2.files ++ newFiles = fs.files ++ newFiles
    rw [hfiles2]
  set fs4 : FS := removeAll fs3 target with hfs4def
  have hfiles4 : fs4.files =
      fs.files.filter (fun f => !(target.isPrefixOf f.path)) ++ newFiles := by
    show fs3.files.filter (fun f => !(target.isPrefixOf f.path)) = _
    rw [hfiles3, List.filter_append]
    congr 1
    refine List.filter_eq_self.mpr ?_
    intro e he
    rw [hNFdef] at he
    obtain ⟨nc, hnc, rfl⟩ := List.mem_map.mp he
    rw [Bool.not_eq_true']
    exact (isPre_false_iff _ _).mpr (hT_entry nc)
  have hdirs4mem : ∀ d ∈ fs4.dirs, ¬ target <+: d := by
    intro d hd
    have hmf := List.mem_filter.mp (show d ∈ fs3.dirs.filter
      (fun d => !(target.isPrefixOf d)) from hd)
    have h2 := hmf.2
    rw [Bool.not_eq_true'] at h2
    exact (isPre_false_iff _ _).mp h2
  have hsrc4 : fs4.dirs.contains (gen fs ++ R) = true := by
    apply List.elem_iff.mpr
    show (gen fs ++ R) ∈ fs3.dirs.filter (fun d => !(target.isPrefixOf d))
    refine List.mem_filter.mpr ⟨?_, ?_⟩
    · show (gen fs ++ R) ∈ fs2.dirs
      exact List.elem_iff.mp hc2
    · rw [Bool.not_eq_true']
      exact (isPre_false_iff _ _).mpr hT_root
  have hany_dirs : fs4.dirs.any (fun d => target.isPrefixOf d) = false :=
    List.any_eq_false.mpr (fun d hd => by
      simpa [List.isPrefixOf_iff_prefix] using hdirs4mem d hd)
  have hany_files : fs4.files.any (fun f => target.isPrefixOf f.path) = false :=
    List.any_eq_false.mpr (fun f hf => by
      rw [hfiles4] at hf
      rcases List.mem_append.mp hf with hl | hr
      · have h2 := (List.mem_filter.mp hl).2
        rw [Bool.not_eq_true'] at h2
        simpa [List.isPrefixOf_iff_prefix] using (isPre_false_iff _ _).mp h2
      · rw [hNFdef] at hr
        obtain ⟨nc, hnc, rfl⟩ := List.mem_map.mp hr
        simpa [List.isPrefixOf_iff_prefix] using hT_entry nc)
  have hrename : renameDir fs4 (gen fs ++ R) target = .ok
      ⟨fs4.dirs.map (rebase (gen fs ++ R) target),
       fs4.files.map (fun f => { f with path := rebase (gen fs ++ R) target f.path })⟩ := by
    simp only [renameDir, hsrc4, hany_dirs, hany_files]
    rfl
  have hfiles5 : fs4.files.map
      (fun f => { f with path := rebase (gen fs ++ R) target f.path }) =
      fs.files.filter (fun f => !(target.isPrefixOf f.path)) ++
        pairs.map (fun nc => ⟨target ++ [nc.1], nc.2, 493⟩) := by
    rw [hfiles4, List.map_append]
    congr 1
    · rw [show (fs.files.filter (fun f => !(target.isPrefixOf f.path))).map
          (fun f => { f with path := rebase (gen fs ++ R) target f.path }) =
          (fs.files.filter (fun f => !(target.isPrefixOf f.path))).map id from
        List.map_congr_left (fun f hf => by
          have hmem := (List.mem_filter.mp hf).1
          have hnp : (gen fs ++ R).isPrefixOf f.path = false :=
            (isPre_false_iff _ _).mpr (hroot_files f hmem)
          simp [rebase, hnp]), List.map_id]
    · rw [hNFdef, List.map_map]
      refine List.map_congr_left ?_
      intro nc hnc
      have hpre : (gen fs ++ R).isPrefixOf (gen fs ++ R ++ [nc.1]) = true :=
        List.isPrefixOf_iff_prefix.mpr (List.prefix_append _ _)
      simp [Function.comp, rebase, hpre, List.drop_left]
  have hrun : handleJob conf client gen fs j =
      (removeAll ⟨fs4.dirs.map (rebase (gen fs ++ R) target),
        fs4.files.map (fun f => { f with path := rebase (gen fs ++ R) target f.path })⟩
        (gen fs), .ok ()) := by
    simp only [handleJob, hconf, hclient]
    rw [← hfs1def]
    simp only [hsave]
    rw [← hfs4def]
    simp only [hrename]
  rw [hrun]
  refine ⟨rfl, ?_⟩
  simp only [removeAll]
  rw [hfiles5, List.filter_append]
  have hkeep1 : (fs.files.filter (fun f => !(target.isPrefixOf f.path))).filter
      (fun f => !((gen fs).isPrefixOf f.path)) =
      fs.files.filter (fun f => !(target.isPrefixOf f.path)) :=
    List.filter_eq_self.mpr (fun f hf => by
      have hmem := (List.mem_filter.mp hf).1
      rw [Bool.not_eq_true']
      exact hfreshf f hmem)
  have hkeep2 : (pairs.map (fun nc => (⟨target ++ [nc.1], nc.2, 493⟩ : FileEntry))).filter
      (fun f => !((gen fs).isPrefixOf f.path)) =
      pairs.map (fun nc => ⟨target ++ [nc.1], nc.2, 493⟩) :=
    List.filter_eq_self.mpr (fun f hf => by
      obtain ⟨nc, hnc, rfl⟩ := List.mem_map.mp hf
      rw [Bool.not_eq_true']
      exact (isPre_false_iff _ _).mpr (htmp_target_entry nc))
  rw [hkeep1, hkeep2]

theorem hodor_install_roundtrip_witness :
    (handleJob (⟨[("rk", ["srv", "app"])]⟩ : Config)
        (fun _ => .ok (.ok (TarEntry.dir ["release"] ::
          ([("a", "AAA"), ("b", "B")] : List (String × String)).map
            (fun nc => TarEntry.file (["release"] ++ [nc.1]) nc.2))))
        (fun _ => ["tmp", "h1"])
        ⟨[["srv"], ["srv", "app"]], [⟨["srv", "app", "old"], "OLD", 420⟩]⟩
        ⟨"j1", "rk", "u"⟩).2 = .ok () ∧
    (handleJob (⟨[("rk", ["srv", "app"])]⟩ : Config)
        (fun _ => .ok (.ok (TarEntry.dir ["release"] ::
          ([("a", "AAA"), ("b", "B")] : List (String × String)).map
            (fun nc => TarEntry.file (["release"] ++ [nc.1]) nc.2))))
        (fun _ => ["tmp", "h1"])
        ⟨[["srv"], ["srv", "app"]], [⟨["srv", "app", "old"], "OLD", 420⟩]⟩
        ⟨"j1", "rk", "u"⟩).1.files =
      ([⟨["srv", "app", "old"], "OLD", 420⟩] : List FileEntry).filter
          (fun f => !((["srv", "app"] : Path).isPrefixOf f.path)) ++
        ([("a", "AAA"), ("b", "B")] : List (String × String)).map
          (fun nc => ⟨["srv", "app"] ++ [nc.1], nc.2, 493⟩) :=
  hodor_install_roundtrip (⟨[("rk", ["srv", "app"])]⟩ : Config)
    (fun _ => .ok (.ok (TarEntry.dir ["release"] ::
      ([("a", "AAA"), ("b", "B")] : List (String × String)).map
        (fun nc => TarEntry.file (["release"] ++ [nc.1]) nc.2))))
    (fun _ => ["tmp", "h1"])
    ⟨[["srv"], ["srv", "app"]], [⟨["srv", "app", "old"], "OLD", 420⟩]⟩
    ⟨"j1", "rk", "u"⟩ ["srv", "app"] ["release"] [("a", "AAA"), ("b", "B")]
    rfl rfl (by decide) (by decide) (by decide) (by decide)

end Hodor
